import Mathlib

/-!
Verification of the MTDA console logger (mtda/console/logger.py).

The Python class `ConsoleLogger` is shallowly embedded here:
bytes are `Nat` (each < 256 in practice), Python `bytearray`/`bytes`
become `List Nat`, the bounded deque `rx_buffer` becomes a
`List (List Nat)` (oldest first) together with an explicit
capacity-evicting append, and Python `str` becomes `List Char`.
Wall-clock times are modelled as natural numbers of microseconds,
supplied externally (`time.time()` calls become parameters).
-/

namespace Mtda

/-- Lenient UTF-8 decoding, modelling Python `bytes.decode("utf-8", "ignore")`:
invalid byte sequences are dropped, decoding never fails.  The first argument
is fuel; each step consumes at least one input byte, so fuel equal to the
input length is always sufficient. -/
def utf8IgnoreFuel : Nat → List Nat → List Char
  | 0, _ => []
  | _ + 1, [] => []
  | fuel + 1, b :: rest =>
    if b < 0x80 then
      Char.ofNat b :: utf8IgnoreFuel fuel rest
    else if b < 0xC2 then
      -- stray continuation byte or overlong lead: dropped
      utf8IgnoreFuel fuel rest
    else if b < 0xE0 then
      match rest with
      | b1 :: rest1 =>
        if 0x80 ≤ b1 ∧ b1 < 0xC0 then
          Char.ofNat ((b - 0xC0) * 0x40 + (b1 - 0x80)) :: utf8IgnoreFuel fuel rest1
        else utf8IgnoreFuel fuel rest
      | [] => []
    else if b < 0xF0 then
      match rest with
      | b1 :: b2 :: rest2 =>
        if (if b = 0xE0 then 0xA0 else 0x80) ≤ b1 ∧ b1 < (if b = 0xED then 0xA0 else 0xC0)
            ∧ 0x80 ≤ b2 ∧ b2 < 0xC0 then
          Char.ofNat ((b - 0xE0) * 0x1000 + (b1 - 0x80) * 0x40 + (b2 - 0x80))
            :: utf8IgnoreFuel fuel rest2
        else utf8IgnoreFuel fuel rest
      | _ => []
    else if b < 0xF5 then
      match rest with
      | b1 :: b2 :: b3 :: rest3 =>
        if (if b = 0xF0 then 0x90 else 0x80) ≤ b1 ∧ b1 < (if b = 0xF4 then 0x90 else 0xC0)
            ∧ 0x80 ≤ b2 ∧ b2 < 0xC0 ∧ 0x80 ≤ b3 ∧ b3 < 0xC0 then
          Char.ofNat ((b - 0xF0) * 0x40000 + (b1 - 0x80) * 0x1000 + (b2 - 0x80) * 0x40
              + (b3 - 0x80)) :: utf8IgnoreFuel fuel rest3
        else utf8IgnoreFuel fuel rest
      | _ => []
    else utf8IgnoreFuel fuel rest

/-- `l.decode("utf-8", "ignore")` -/
def utf8Ignore (l : List Nat) : List Char := utf8IgnoreFuel l.length l

/-- UTF-8 encoding of one code point, modelling Python `str.encode("utf-8")`
character by character. -/
def encodeChar (n : Nat) : List Nat :=
  if n < 0x80 then [n]
  else if n < 0x800 then [0xC0 + n / 0x40, 0x80 + n % 0x40]
  else if n < 0x10000 then
    [0xE0 + n / 0x1000, 0x80 + (n / 0x40) % 0x40, 0x80 + n % 0x40]
  else
    [0xF0 + n / 0x40000, 0x80 + (n / 0x1000) % 0x40, 0x80 + (n / 0x40) % 0x40, 0x80 + n % 0x40]

/-- `bytes(s, "utf-8")` -/
def strBytes (s : List Char) : List Nat := (s.map (fun c => encodeChar c.toNat)).flatten

/-- The receive-side buffers of a `ConsoleLogger`:
`rx_queue` is the pending-bytes accumulator (`bytearray`), `rx_buffer` the
line history (`deque(maxlen=1000)`), kept oldest first. -/
structure BufState where
  rx_queue : List Nat
  rx_buffer : List (List Nat)
deriving Repr, DecidableEq

/-- `ConsoleLogger._clear`: drops both the line history and the pending bytes. -/
def clearRx (st : BufState) : BufState := { st with rx_buffer := [], rx_queue := [] }

/-- Capacity of `rx_buffer` (`deque(maxlen=1000)`). -/
def RX_CAP : Nat := 1000

/-- Appending to a `deque(maxlen=RX_CAP)`: when the deque is full the
oldest (leftmost) entry is evicted. -/
def dequeAppend (buf : List (List Nat)) (x : List Nat) : List (List Nat) :=
  if buf.length < RX_CAP then buf ++ [x] else buf.drop 1 ++ [x]

/-- `bytearray.find(b, 0)` for the line-feed byte: index of the first
occurrence of 0x0a, `none` when absent (Python returns -1). -/
def findLf : List Nat → Option Nat
  | [] => none
  | b :: rest => if b = 0xa then some 0 else (findLf rest).map (· + 1)

/-- The trailing CR-LF normalization of `process_rx`:
`if len(line) > 1 and line[-2] == 0xd and line[-1] == 0xa` then the final
LF is deleted and the CR (now last) is overwritten with LF. -/
def normalizeCrLf (line : List Nat) : List Nat :=
  if 1 < line.length ∧ line.getD (line.length - 2) 0 = 0xd
      ∧ line.getD (line.length - 1) 0 = 0xa then
    line.dropLast.dropLast ++ [0xa]
  else line

/-- The `while linefeeds > 0` framing loop of `process_rx`.  The loop body
never decrements `linefeeds`; it exits only when no line feed is found in
the queue.  Fuel bounds the iteration count; each productive iteration
removes at least one byte from the queue, so fuel equal to the queue
length is always sufficient. -/
def frameLines : Nat → Nat → BufState → BufState
  | 0, _, st => st
  | fuel + 1, linefeeds, st =>
    if 0 < linefeeds then
      match findLf st.rx_queue with
      | some i =>
        let off := i + 1
        let line := normalizeCrLf (st.rx_queue.take off)
        frameLines fuel linefeeds ⟨st.rx_queue.drop off, dequeAppend st.rx_buffer line⟩
      | none => st
    else st

/-- Digits of a natural number in microsecond-resolution fixed-point
rendering: `"%4.6f" % (us / 1e6)`.  Since six fractional digits are always
printed, the minimum field width of 4 never pads. -/
def fixed6 (us : Nat) : List Char :=
  let frac := Nat.toDigits 10 (us % 1000000)
  Nat.toDigits 10 (us / 1000000) ++ '.' :: (List.replicate (6 - frac.length) '0' ++ frac)

/-- The timestamp marker appended after each line feed:
`("[%4.6f] " % elapsed).encode("utf-8")`, with `elapsed` in microseconds. -/
def tsMarkerBytes (elapsedUs : Nat) : List Nat :=
  strBytes ('[' :: fixed6 elapsedUs ++ [']', ' '])

/-- The timestamp-annotation loop of `process_rx` (the `timestamps is True`
branch): carriage returns are skipped, every other byte is copied, and each
line-feed byte is followed by a timestamp marker.  `clock k` is the value of
`time.time()` (in microseconds) observed at the k-th line feed of the call;
`lf` is the running `linefeeds` counter.  Returns the rewritten bytes and
the final counter. -/
def annotateTs (basetime : Nat) (clock : Nat → Nat) : List Nat → Nat → List Nat × Nat
  | [], lf => ([], lf)
  | x :: rest, lf =>
    if x = 0xd then annotateTs basetime clock rest lf
    else if x = 0xa then
      let marker := tsMarkerBytes (clock lf - basetime)
      let r := annotateTs basetime clock rest (lf + 1)
      (x :: (marker ++ r.1), r.2)
    else
      let r := annotateTs basetime clock rest lf
      (x :: r.1, r.2)

/-- `ConsoleLogger.process_rx(data)`.  `basetime` is the session baseline
(0 meaning unset, as in Python where `0` is falsy), `clock` supplies the
`time.time()` values (microseconds) for this call.  Returns the updated
buffers and the (possibly latched) baseline.  Publication of the chunk to
the output sink does not affect the buffers and is not modelled here. -/
def processRx (timestamps : Bool) (basetime : Nat) (clock : Nat → Nat)
    (data : List Nat) (st : BufState) : BufState × Nat :=
  let bt := if basetime = 0 then clock 0 else basetime
  let r := if timestamps then annotateTs bt clock data 0 else (data, 1)
  let q := st.rx_queue ++ r.1
  (frameLines q.length r.2 ⟨q, st.rx_buffer⟩, bt)

/-- One ingestion call with timestamping disabled (the state part of
`process_rx`; the clock is then irrelevant to the buffers). -/
def ingest (data : List Nat) (st : BufState) : BufState :=
  (processRx false 1 (fun _ => 1) data st).1

/-- The concatenation loop of `ConsoleLogger._dump`: pops every history
line (oldest first) and decodes it leniently. -/
def dumpLines : List (List Nat) → List Char
  | [] => []
  | l :: ls => utf8Ignore l ++ dumpLines ls

/-- The string built by `ConsoleLogger._dump`: all history lines
oldest→newest followed by the decoded pending bytes. -/
def dumpStr (st : BufState) : List Char :=
  dumpLines st.rx_buffer ++ utf8Ignore st.rx_queue

/-- `ConsoleLogger._dump(flush)`: returns the dump string; the history is
drained unconditionally (the while loop pops every entry), the pending
bytes are cleared only when `flush` is true. -/
def dumpOp (flush : Bool) (st : BufState) : List Char × BufState :=
  (dumpStr st, { st with rx_buffer := [], rx_queue := if flush then [] else st.rx_queue })

/-- `ConsoleLogger._head()`: pops and decodes the oldest history line. -/
def headOp (st : BufState) : Option (List Char) × BufState :=
  match st.rx_buffer with
  | [] => (none, st)
  | l :: rest => (some (utf8Ignore l), { st with rx_buffer := rest })

/-- `ConsoleLogger.lines()`: number of buffered lines. -/
def linesOp (st : BufState) : Nat := st.rx_buffer.length

/-- `ConsoleLogger._tail(discard)`: the pending bytes if non-empty, else
the newest history line, else `none`; when something is returned and
`discard` is true, both buffers are cleared (`self._clear()`). -/
def tailOp (discard : Bool) (st : BufState) : Option (List Char) × BufState :=
  if 0 < st.rx_queue.length then
    (some (utf8Ignore st.rx_queue), if discard then clearRx st else st)
  else
    match st.rx_buffer.getLast? with
    | some line => (some (utf8Ignore line), if discard then clearRx st else st)
    | none => (none, st)

/-- The string examined by `_matchprompt`: `self._tail(False)`. -/
def tailStr (st : BufState) : Option (List Char) := (tailOp false st).1

/-- `str.endswith(p)` on the `List Char` model of Python strings. -/
def endsWithL (s p : List Char) : Bool := s.drop (s.length - p.length) == p

/-- The `if prompt.startswith("\r"): prompt = prompt[1:]` step of
`_matchprompt`: strips at most one leading carriage return. -/
def stripLeadCr (t : List Char) : List Char :=
  if t.head? = some '\r' then t.drop 1 else t

/-- `ConsoleLogger._matchprompt()` for a configured prompt `p`. -/
def matchPrompt (p : List Char) (st : BufState) : Bool :=
  match tailStr st with
  | none => false
  | some t => endsWithL (stripLeadCr t) p

/-- The prompt configured by `ConsoleLogger.__init__`. -/
def defaultPrompt : List Char := ['=', '>', ' ']

/-- Value of a hexadecimal digit byte, `none` for a non-hex byte. -/
def hexVal (b : Nat) : Option Nat :=
  if 0x30 ≤ b ∧ b ≤ 0x39 then some (b - 0x30)
  else if 0x61 ≤ b ∧ b ≤ 0x66 then some (b - 0x57)
  else if 0x41 ≤ b ∧ b ≤ 0x46 then some (b - 0x37)
  else none

/-- C-style escape decoding of a byte string, modelling
`codecs.escape_decode(data)[0]`; `none` models the `ValueError` raised on a
malformed `\x` escape or a trailing backslash.  Fuel: each step consumes at
least one byte. -/
def escDecAux : Nat → List Nat → Option (List Nat)
  | 0, _ => some []
  | _ + 1, [] => some []
  | fuel + 1, b :: rest =>
    if b ≠ 0x5c then (escDecAux fuel rest).map (b :: ·)
    else
      match rest with
      | [] => none
      | c :: rest2 =>
        if c = 0xa then escDecAux fuel rest2
        else if c = 0x5c then (escDecAux fuel rest2).map (0x5c :: ·)
        else if c = 0x27 then (escDecAux fuel rest2).map (0x27 :: ·)
        else if c = 0x22 then (escDecAux fuel rest2).map (0x22 :: ·)
        else if c = 0x62 then (escDecAux fuel rest2).map (0x08 :: ·)
        else if c = 0x66 then (escDecAux fuel rest2).map (0x0c :: ·)
        else if c = 0x74 then (escDecAux fuel rest2).map (0x09 :: ·)
        else if c = 0x6e then (escDecAux fuel rest2).map (0x0a :: ·)
        else if c = 0x72 then (escDecAux fuel rest2).map (0x0d :: ·)
        else if c = 0x76 then (escDecAux fuel rest2).map (0x0b :: ·)
        else if c = 0x61 then (escDecAux fuel rest2).map (0x07 :: ·)
        else if 0x30 ≤ c ∧ c ≤ 0x37 then
          match rest2 with
          | d2 :: rest3 =>
            if 0x30 ≤ d2 ∧ d2 ≤ 0x37 then
              match rest3 with
              | d3 :: rest4 =>
                if 0x30 ≤ d3 ∧ d3 ≤ 0x37 then
                  (escDecAux fuel rest4).map
                    ((((c - 0x30) * 64 + (d2 - 0x30) * 8 + (d3 - 0x30)) % 256) :: ·)
                else (escDecAux fuel rest3).map (((c - 0x30) * 8 + (d2 - 0x30)) :: ·)
              | [] => (escDecAux fuel rest3).map (((c - 0x30) * 8 + (d2 - 0x30)) :: ·)
            else (escDecAux fuel rest2).map ((c - 0x30) :: ·)
          | [] => (escDecAux fuel rest2).map ((c - 0x30) :: ·)
        else if c = 0x78 then
          match rest2 with
          | h1 :: h2 :: rest4 =>
            match hexVal h1, hexVal h2 with
            | some v1, some v2 => (escDecAux fuel rest4).map ((v1 * 16 + v2) :: ·)
            | _, _ => none
          | _ => none
        else (escDecAux fuel rest2).map (fun t => 0x5c :: c :: t)

/-- `codecs.escape_decode(data)[0]` (`none` = `ValueError`). -/
def escapeDecode (l : List Nat) : Option (List Nat) := escDecAux l.length l

/-- Outcome of one `ConsoleLogger.write` call: the byte strings handed to
`console.write` (exactly one per call — a failed write is not retried) and
whether an error was reported to stderr. -/
structure WriteResult where
  sends : List (List Nat)
  errorReported : Bool
deriving Repr, DecidableEq

/-- `ConsoleLogger.write(data, raw)` against a transport whose `write`
raises `IOError` iff `consoleFails`.  The `IOError` is caught and reported;
`none` models the only way the call can raise: a `ValueError` escaping from
`codecs.escape_decode` (not an `IOError`, hence not caught). -/
def writeOp (consoleFails : Bool) (data : List Nat) (raw : Bool) : Option WriteResult :=
  let payload := if raw then some data else escapeDecode data
  match payload with
  | none => none
  | some p => some ⟨[p], consoleFails⟩

/-- `ConsoleLogger.run(cmd)`, with the transport's replies supplied as the
chunks ingested by the reader while `run` is parked in each
`wait_for(_matchprompt)`: clear, send the interrupt (reply `resp1`
arrives), wait, clear, send the command (reply `resp2` arrives), wait,
drop the oldest line and destructively dump the rest. -/
def runModel (_cmd : List Char) (resp1 resp2 : List Nat) (st : BufState) :
    List Char × BufState :=
  let st1 := ingest resp1 (clearRx st)
  let st2 := ingest resp2 (clearRx st1)
  let st3 := (headOp st2).2
  dumpOp true st3

/-- The byte strings `run(cmd)` hands to the transport: the interrupt byte
`"\3"` and `"%s\n" % cmd`, each through `write`'s escape decoding. -/
def runWrites (cmd : List Char) : List (List Nat) :=
  [(escapeDecode [0x03]).getD [], (escapeDecode (strBytes cmd ++ [0xa])).getD []]

/-- One observable outcome of a read attempt in `ConsoleLogger.reader`:
either the read succeeds, or it raises `IOError` and the subsequent
close/reopen either succeeds or raises `IOError`. -/
inductive ReadEvent where
  | readOk
  | readFail (reopenFails : Bool)
deriving Repr, DecidableEq

/-- The recovery-relevant state of the reader loop: the `rx_alive` flag and
the `retries` counter. -/
structure ReaderState where
  rx_alive : Bool
  retries : Nat
deriving Repr, DecidableEq

/-- Reader state on entry to the loop: alive, `retries = 3`. -/
def readerInit : ReaderState := ⟨true, 3⟩

/-- One iteration of the `while self.rx_alive` loop of
`ConsoleLogger.reader`, given the outcome of the read it performs: a
successful read changes nothing here; on a failed read, if `retries > 0`
the console is closed and reopened (decrementing `retries` only when that
reopen raises), and if `retries == 0` the loop gives up and clears
`rx_alive`. -/
def readerStep (s : ReaderState) (e : ReadEvent) : ReaderState :=
  match e with
  | .readOk => s
  | .readFail reopenFails =>
    if 0 < s.retries then
      if reopenFails then { s with retries := s.retries - 1 } else s
    else { s with rx_alive := false }

/-- Running the reader loop over a list of read outcomes; also counts how
many reads were attempted (an event is consumed only while `rx_alive`). -/
def readerRun (s : ReaderState) : List ReadEvent → ReaderState × Nat
  | [] => (s, 0)
  | e :: es =>
    if s.rx_alive then
      let r := readerRun (readerStep s e) es
      (r.1, r.2 + 1)
    else (s, 0)

/-- Spec-side description of the timestamp rewriting, written from the
spec's words for comparison with `annotateTs`: on the CR-stripped chunk,
every line feed is emitted followed by the elapsed-time marker, all other
bytes pass through; `k` indexes the line feeds. -/
def specTimestampRewrite (basetime : Nat) (clock : Nat → Nat) : List Nat → Nat → List Nat
  | [], _ => []
  | x :: rest, k =>
    if x = 0xa then x :: (tsMarkerBytes (clock k - basetime) ++ specTimestampRewrite basetime clock rest (k + 1))
    else x :: specTimestampRewrite basetime clock rest k

/-! ### Helper lemmas -/

theorem findLf_eq_none {l : List Nat} (h : findLf l = none) : ¬ 0xa ∈ l := by
  induction l with
  | nil => simp
  | cons b rest ih =>
    simp only [findLf] at h
    by_cases hb : b = 0xa
    · simp [hb] at h
    · rw [if_neg hb, Option.map_eq_none'] at h
      simp only [List.mem_cons]
      rintro (hEq | hMem)
      · exact hb hEq.symm
      · exact ih h hMem

theorem findLf_lt_length {l : List Nat} {i : Nat} (h : findLf l = some i) : i < l.length := by
  induction l generalizing i with
  | nil => simp [findLf] at h
  | cons b rest ih =>
    simp only [findLf] at h
    by_cases hb : b = 0xa
    · rw [if_pos hb] at h
      cases h
      simp
    · rw [if_neg hb, Option.map_eq_some'] at h
      obtain ⟨j, hj, hij⟩ := h
      subst hij
      simpa using ih hj

theorem frameLines_no_lf : ∀ (fuel lf : Nat) (st : BufState), 0 < lf →
    st.rx_queue.length ≤ fuel → ¬ 0xa ∈ (frameLines fuel lf st).rx_queue := by
  intro fuel
  induction fuel with
  | zero =>
    intro lf st _ hlen
    have hq : st.rx_queue = [] := List.eq_nil_of_length_eq_zero (Nat.le_zero.mp hlen)
    simp [frameLines, hq]
  | succ n ih =>
    intro lf st hlf hlen
    rw [frameLines, if_pos hlf]
    cases hfind : findLf st.rx_queue with
    | none => exact findLf_eq_none hfind
    | some i =>
      have hi := findLf_lt_length hfind
      apply ih lf _ hlf
      simp only [List.length_drop]
      omega

theorem dequeAppend_length_le {buf : List (List Nat)} (x : List Nat)
    (h : buf.length ≤ RX_CAP) : (dequeAppend buf x).length ≤ RX_CAP := by
  unfold dequeAppend
  by_cases hlt : buf.length < RX_CAP
  · rw [if_pos hlt]
    simp only [List.length_append, List.length_cons, List.length_nil]
    omega
  · rw [if_neg hlt]
    simp only [List.length_append, List.length_drop, List.length_cons, List.length_nil]
    unfold RX_CAP at h hlt ⊢
    omega

theorem foldl_dequeAppend_le (ls : List (List Nat)) :
    ∀ acc : List (List Nat), acc.length ≤ RX_CAP →
      (ls.foldl dequeAppend acc).length ≤ RX_CAP := by
  induction ls with
  | nil => intro acc h; simpa using h
  | cons x xs ih => intro acc h; exact ih _ (dequeAppend_length_le x h)

theorem annotateTs_count (b : Nat) (c : Nat → Nat) :
    ∀ (data : List Nat) (k : Nat), (annotateTs b c data k).2 = k + data.count 0xa := by
  intro data
  induction data with
  | nil => intro k; simp [annotateTs]
  | cons x rest ih =>
    intro k
    by_cases hd : x = 0xd
    · subst hd
      simp [annotateTs, ih, List.count_cons]
    · by_cases ha : x = 0xa
      · subst ha
        simp [annotateTs, ih, List.count_cons]
        omega
      · have hx : ¬ (0xa = x) := fun hEq => ha hEq.symm
        simp [annotateTs, hd, ha, ih, List.count_cons, hx]

theorem annotateTs_rewrite (b : Nat) (c : Nat → Nat) :
    ∀ (data : List Nat) (k : Nat),
      (annotateTs b c data k).1 = specTimestampRewrite b c (data.filter (· != 0xd)) k := by
  intro data
  induction data with
  | nil => intro k; simp [annotateTs, specTimestampRewrite]
  | cons x rest ih =>
    intro k
    by_cases hd : x = 0xd
    · subst hd
      simp [annotateTs, ih]
    · by_cases ha : x = 0xa
      · subst ha
        simp [annotateTs, specTimestampRewrite, hd, ih]
      · simp [annotateTs, specTimestampRewrite, hd, ha, ih]

theorem getD_append_len (l t : List Nat) (k : Nat) :
    (l ++ t).getD (l.length + k) 0 = t.getD k 0 := by
  induction l with
  | nil => simp
  | cons a rest ih =>
    simp only [List.cons_append, List.length_cons]
    rw [Nat.succ_add]
    simpa using ih

theorem dropLast_append_two (pre : List Nat) (a b : Nat) :
    (pre ++ [a, b]).dropLast.dropLast = pre := by
  have h1 : pre ++ [a, b] = (pre ++ [a]) ++ [b] := by simp
  rw [h1, List.dropLast_concat, List.dropLast_concat]

theorem normalizeCrLf_crlf (pre : List Nat) :
    normalizeCrLf (pre ++ [0xd, 0xa]) = pre ++ [0xa] := by
  have hlen : (pre ++ [0xd, 0xa]).length = pre.length + 2 := by simp
  have h2 : (pre ++ [0xd, 0xa]).getD ((pre ++ [0xd, 0xa]).length - 2) 0 = 0xd := by
    rw [hlen, Nat.add_sub_cancel, show pre.length = pre.length + 0 from rfl,
      getD_append_len]
    rfl
  have h3 : (pre ++ [0xd, 0xa]).getD ((pre ++ [0xd, 0xa]).length - 1) 0 = 0xa := by
    rw [hlen, show pre.length + 2 - 1 = pre.length + 1 from rfl, getD_append_len]
    rfl
  unfold normalizeCrLf
  rw [if_pos ⟨by rw [hlen]; omega, h2, h3⟩, dropLast_append_two]

theorem headOp_snd (s : BufState) : (headOp s).2 = ⟨s.rx_queue, s.rx_buffer.tail⟩ := by
  obtain ⟨q, buf⟩ := s
  cases buf <;> rfl

theorem readerStep_retries_le (s : ReaderState) (e : ReadEvent) :
    (readerStep s e).retries ≤ s.retries := by
  cases e with
  | readOk => exact le_rfl
  | readFail f =>
    simp only [readerStep]
    by_cases h : 0 < s.retries
    · rw [if_pos h]
      cases f <;> simp [Nat.sub_le]
    · rw [if_neg h]

theorem readerRun_retries_le (evs : List ReadEvent) :
    ∀ s : ReaderState, (readerRun s evs).1.retries ≤ s.retries := by
  induction evs with
  | nil => intro s; exact le_rfl
  | cons e es ih =>
    intro s
    simp only [readerRun]
    by_cases h : s.rx_alive = true
    · rw [if_pos h]
      exact le_trans (ih (readerStep s e)) (readerStep_retries_le s e)
    · rw [if_neg h]

/-! ### Claims -/

/-- Claim C1, corrected.  The ingestion path with timestamping disabled
reports the fixed count 1, but the framing loop exits only when no line
feed is left in the queue, so a single ingestion call frames every
terminated line: afterwards PendingBytes contains no line-feed byte, and
in particular ingesting two terminated lines buffers both at once and
leaves nothing queued. -/
theorem claim_C1 :
    (∀ (b : Nat) (c : Nat → Nat) (data : List Nat) (st : BufState),
      (processRx false b c data st).1.rx_queue.count 0xa = 0)
    ∧ ingest [97, 0xa, 98, 0xa] ⟨[], []⟩ = ⟨[], [[97, 0xa], [98, 0xa]]⟩ := by
  constructor
  · intro b c data st
    have hrw : (processRx false b c data st).1
        = frameLines (st.rx_queue ++ data).length 1 ⟨st.rx_queue ++ data, st.rx_buffer⟩ := rfl
    rw [hrw]
    exact List.count_eq_zero.mpr (frameLines_no_lf _ 1 _ (by decide) le_rfl)
  · decide

/-- Claim C1 counterexample: ingesting the chunk `b"a\nb\n"` with
timestamping disabled moves BOTH terminated lines into LineHistory in the
one call and leaves PendingBytes empty, contradicting the claim that only
the lines of a single extraction attempt move and the rest stay queued. -/
theorem claim_C1_cex :
    (ingest [97, 0xa, 98, 0xa] ⟨[], []⟩).rx_buffer.length = 2
    ∧ (ingest [97, 0xa, 98, 0xa] ⟨[], []⟩).rx_queue = [] := by
  exact ⟨by decide, by decide⟩

/-- Claim C2, corrected.  `run` clears the buffers, sends the interrupt
byte, waits for the prompt, clears again, sends the command plus a line
terminator, waits again, discards the oldest buffered line and returns the
destructive dump of everything else — and that dump also contains
PendingBytes, i.e. the trailing unterminated prompt, so in the concrete
scenario `run("ls")` returns `"file1\nfile2\n=> "`. -/
theorem claim_C2 (cmd : List Char) (resp1 resp2 : List Nat) (st : BufState) (p : List Char)
    (_h1 : matchPrompt p (ingest resp1 (clearRx st)) = true)
    (_h2 : matchPrompt p (ingest resp2 (clearRx (ingest resp1 (clearRx st)))) = true) :
    (runModel cmd resp1 resp2 st).1
        = dumpLines (ingest resp2 (clearRx (ingest resp1 (clearRx st)))).rx_buffer.tail
          ++ utf8Ignore (ingest resp2 (clearRx (ingest resp1 (clearRx st)))).rx_queue
      ∧ (runModel cmd resp1 resp2 st).2 = ⟨[], []⟩
      ∧ runWrites cmd = [[0x03], (escapeDecode (strBytes cmd ++ [0xa])).getD []]
      ∧ (runModel "ls".toList (strBytes "\r\n=> ".toList)
          (strBytes "ls\r\nfile1\r\nfile2\r\n=> ".toList) ⟨[], []⟩).1
          = "file1\nfile2\n=> ".toList := by
  refine ⟨?_, rfl, rfl, by decide⟩
  show (dumpOp true (headOp (ingest resp2 (clearRx (ingest resp1 (clearRx st))))).2).1 = _
  rw [headOp_snd]
  rfl

/-- Claim C2 witness: the concrete handshake scenario satisfies both
prompt waits, and the theorem's conclusion evaluates there. -/
theorem claim_C2_witness :
    matchPrompt defaultPrompt
        (ingest (strBytes "\r\n=> ".toList) (clearRx ⟨[], []⟩)) = true
    ∧ (runModel "ls".toList (strBytes "\r\n=> ".toList)
        (strBytes "ls\r\nfile1\r\nfile2\r\n=> ".toList) ⟨[], []⟩).1
        = "file1\nfile2\n=> ".toList :=
  ⟨by decide,
    (claim_C2 "ls".toList (strBytes "\r\n=> ".toList)
      (strBytes "ls\r\nfile1\r\nfile2\r\n=> ".toList) ⟨[], []⟩ defaultPrompt
      (by decide) (by decide)).2.2.2⟩

/-- Claim C2 counterexample: in the claimed scenario (prompt `"=> "`,
interrupt reply `"\r\n=> "`, command reply `"ls\r\nfile1\r\nfile2\r\n=> "`)
the returned string is `"file1\nfile2\n=> "`, not the claimed
`"file1\nfile2\n"`: the destructive dump includes the pending prompt tail. -/
theorem claim_C2_cex :
    (runModel "ls".toList (strBytes "\r\n=> ".toList)
        (strBytes "ls\r\nfile1\r\nfile2\r\n=> ".toList) ⟨[], []⟩).1
        ≠ "file1\nfile2\n".toList
    ∧ (runModel "ls".toList (strBytes "\r\n=> ".toList)
        (strBytes "ls\r\nfile1\r\nfile2\r\n=> ".toList) ⟨[], []⟩).1
        = "file1\nfile2\n=> ".toList :=
  ⟨by decide, by decide⟩

/-- Claim C3, corrected.  The retry budget starts at 3, is decremented only
when a reopen attempt fails (a successful read, or a failed read whose
reopen succeeds, leaves it unchanged; it is never replenished), and once
the loop has stopped no further reads are attempted.  However, the budget
reaching zero does not by itself stop the loop: reads keep being attempted,
and it is the NEXT read failure at budget zero that sets the liveness flag
false and makes the loop terminal. -/
theorem claim_C3 :
    readerInit.retries = 3
    ∧ (∀ s : ReaderState, readerStep s .readOk = s)
    ∧ (∀ s : ReaderState, 0 < s.retries → readerStep s (.readFail false) = s)
    ∧ (∀ (s : ReaderState) (evs : List ReadEvent), (readerRun s evs).1.retries ≤ s.retries)
    ∧ (∀ s : ReaderState, s.rx_alive = true → s.retries = 0 → ∀ f,
        readerStep s (.readFail f) = ⟨false, 0⟩)
    ∧ (∀ (s : ReaderState) (evs : List ReadEvent), s.rx_alive = false →
        readerRun s evs = (s, 0)) := by
  refine ⟨rfl, fun s => rfl, ?_, fun s evs => readerRun_retries_le evs s, ?_, ?_⟩
  · intro s hs
    simp [readerStep, hs]
  · intro s halive hz f
    obtain ⟨a, r⟩ := s
    simp only at halive hz
    subst halive; subst hz
    simp [readerStep]
  · intro s evs hdead
    cases evs with
    | nil => rfl
    | cons e es => simp [readerRun, hdead]

/-- Claim C3 witness: concrete instantiations discharging each hypothesis
of the claim-C3 theorem. -/
theorem claim_C3_witness :
    (0 < (⟨true, 2⟩ : ReaderState).retries
      ∧ readerStep ⟨true, 2⟩ (.readFail false) = ⟨true, 2⟩)
    ∧ ((⟨true, 0⟩ : ReaderState).rx_alive = true
      ∧ (⟨true, 0⟩ : ReaderState).retries = 0
      ∧ readerStep ⟨true, 0⟩ (.readFail true) = ⟨false, 0⟩)
    ∧ ((⟨false, 1⟩ : ReaderState).rx_alive = false
      ∧ readerRun ⟨false, 1⟩ [.readOk] = (⟨false, 1⟩, 0)) :=
  ⟨⟨by decide, claim_C3.2.2.1 ⟨true, 2⟩ (by decide)⟩,
   ⟨rfl, rfl, claim_C3.2.2.2.2.1 ⟨true, 0⟩ rfl rfl true⟩,
   ⟨rfl, claim_C3.2.2.2.2.2 ⟨false, 1⟩ [.readOk] rfl⟩⟩

/-- Claim C3 counterexample: three consecutive reopen failures leave the
session with budget 0 but STILL alive (liveness is not set false when the
budget reaches zero), and a fourth read is then attempted — the loop stops
only after that further read fails. -/
theorem claim_C3_cex :
    readerRun readerInit [.readFail true, .readFail true, .readFail true]
        = (⟨true, 0⟩, 3)
    ∧ readerRun readerInit
        [.readFail true, .readFail true, .readFail true, .readFail false]
        = (⟨false, 0⟩, 4) :=
  ⟨by decide, by decide⟩

/-- Claim C4, confirmed: for every sequence of appended lines the history
never exceeds 1000 entries, and appending to a full history evicts exactly
the oldest entry, keeping the newest 1000 (FIFO trim, never an error). -/
theorem claim_C4 :
    (∀ ls : List (List Nat), (ls.foldl dequeAppend []).length ≤ RX_CAP)
    ∧ (∀ (buf : List (List Nat)) (x : List Nat), buf.length = RX_CAP →
        dequeAppend buf x = buf.tail ++ [x]
          ∧ (dequeAppend buf x).length = RX_CAP
          ∧ (dequeAppend buf x).getLast? = some x) := by
  constructor
  · intro ls
    exact foldl_dequeAppend_le ls [] (by simp)
  · intro buf x hfull
    have hnl : ¬ buf.length < RX_CAP := by omega
    constructor
    · rw [dequeAppend, if_neg hnl, List.drop_one]
    refine ⟨?_, ?_⟩
    · rw [dequeAppend, if_neg hnl]
      simp only [List.length_append, List.length_drop, List.length_cons, List.length_nil]
      unfold RX_CAP at hfull ⊢
      omega
    · rw [dequeAppend, if_neg hnl]
      simp

/-- Claim C4 witness: a concrete full history of 1000 entries, where the
theorem applies and the append evicts the head. -/
theorem claim_C4_witness :
    (List.replicate RX_CAP ([] : List Nat)).length = RX_CAP
    ∧ dequeAppend (List.replicate RX_CAP ([] : List Nat)) [65]
        = (List.replicate RX_CAP ([] : List Nat)).tail ++ [[65]] :=
  ⟨by simp, (claim_C4.2 _ _ (by simp)).1⟩

/-- Claim C5, confirmed: the non-destructive dump concatenates every
history line (oldest→newest) followed by the pending bytes, drains the
history but preserves the pending bytes — so a second non-destructive dump
returns exactly the pending tail — and the destructive variant returns the
same string, differing only in additionally clearing the pending bytes. -/
theorem claim_C5 (st : BufState) :
    (dumpOp false st).1 = dumpLines st.rx_buffer ++ utf8Ignore st.rx_queue
    ∧ (dumpOp false st).2.rx_queue = st.rx_queue
    ∧ (dumpOp false st).2.rx_buffer = []
    ∧ (dumpOp false ((dumpOp false st).2)).1 = utf8Ignore st.rx_queue
    ∧ (dumpOp true st).1 = (dumpOp false st).1
    ∧ (dumpOp true st).2 = { (dumpOp false st).2 with rx_queue := [] } :=
  ⟨rfl, rfl, rfl, rfl, rfl, rfl⟩

/-- Claim C6, corrected.  `_matchprompt` is true exactly when the most
recently observed tail (pending bytes if non-empty, else the newest history
line; false when both are empty), after stripping at most one leading
carriage return, ends with the configured prompt — but since an
ends-with test only inspects the end of the string, the tail
`"\r\r=> "` also matches prompt `"=> "`, just like `"\r=> "`. -/
theorem claim_C6 (p : List Char) (st : BufState) :
    (matchPrompt p st = true
      ↔ ∃ t, tailStr st = some t ∧ endsWithL (stripLeadCr t) p = true)
    ∧ matchPrompt defaultPrompt ⟨strBytes "\r=> ".toList, []⟩ = true
    ∧ matchPrompt defaultPrompt ⟨strBytes "\r\r=> ".toList, []⟩ = true
    ∧ matchPrompt p ⟨[], []⟩ = false := by
  refine ⟨?_, by decide, by decide, rfl⟩
  cases h : tailStr st with
  | none => simp [matchPrompt, h]
  | some t => simp [matchPrompt, h]

/-- Claim C6 counterexample: with the configured prompt `"=> "`, a pending
tail of `"\r\r=> "` DOES match (the claim asserts it does not): stripping
one leading CR leaves `"\r=> "`, which still ends with `"=> "`. -/
theorem claim_C6_cex :
    matchPrompt defaultPrompt ⟨strBytes "\r\r=> ".toList, []⟩ = true := by
  decide

/-- Claim C7, confirmed: with timestamping enabled the annotator strips
every carriage return, emits each line feed followed by the elapsed-time
marker (six decimal places of now − baseline), and reports the exact
number of line-feed bytes; ingesting `b"a\n"` at the baseline instant
yields `"a\n[0.000000] "` with count 1. -/
theorem claim_C7 (b : Nat) (c : Nat → Nat) (data : List Nat) :
    (annotateTs b c data 0).2 = data.count 0xa
    ∧ (annotateTs b c data 0).1
        = specTimestampRewrite b c (data.filter (· != 0xd)) 0
    ∧ annotateTs 5 (fun _ => 5) (strBytes "a\n".toList) 0
        = (strBytes "a\n[0.000000] ".toList, 1) := by
  refine ⟨?_, annotateTs_rewrite b c data 0, by decide⟩
  simpa using annotateTs_count b c data 0

/-- Claim C8, confirmed: a framed line ending in the two bytes CR LF is
stored with that trailing pair normalized to a single LF and no other byte
changed; ingesting `b"hello\r\n"` with timestamps disabled buffers exactly
the one line `"hello\n"`. -/
theorem claim_C8 :
    (∀ pre : List Nat, normalizeCrLf (pre ++ [0xd, 0xa]) = pre ++ [0xa])
    ∧ ingest (strBytes "hello\r\n".toList) ⟨[], []⟩
        = ⟨[], [strBytes "hello\n".toList]⟩ :=
  ⟨normalizeCrLf_crlf, by decide⟩

/-- Claim C9, confirmed: `write` passes the bytes through unchanged when
`raw` is true and interprets C-style backslash escapes when `raw` is
false, then hands exactly one byte string to the transport; a transport
write fault is reported to the error channel and the call still completes
without raising, with no retry (the bytes may be silently lost). -/
theorem claim_C9 (fails : Bool) (data payload : List Nat)
    (h : escapeDecode data = some payload) :
    writeOp fails data true = some ⟨[data], fails⟩
    ∧ writeOp fails data false = some ⟨[payload], fails⟩
    ∧ (writeOp fails data false).isSome = true := by
  refine ⟨rfl, ?_, ?_⟩
  · simp [writeOp, h]
  · simp [writeOp, h]

/-- Claim C9 witness: data `b"a\\n"` escape-decodes to `b"a\n"`, and a
faulting transport write reports the error, attempts exactly one send, and
does not raise. -/
theorem claim_C9_witness :
    escapeDecode [97, 92, 110] = some [97, 0xa]
    ∧ writeOp true [97, 92, 110] false = some ⟨[[97, 0xa]], true⟩ :=
  ⟨by decide, (claim_C9 true [97, 92, 110] [97, 0xa] (by decide)).2.1⟩

/-- Claim C10, confirmed: the public `tail()` is always destructive — it
returns the leniently decoded pending bytes if non-empty, else the newest
history line, else none, and in the first two cases clears both pending
bytes and the whole history, so afterwards `lines()` is 0 and a dump
returns the empty string. -/
theorem claim_C10 (st : BufState) :
    (st.rx_queue ≠ [] → tailOp true st = (some (utf8Ignore st.rx_queue), ⟨[], []⟩))
    ∧ (st.rx_queue = [] → ∀ l, st.rx_buffer.getLast? = some l →
        tailOp true st = (some (utf8Ignore l), ⟨[], []⟩))
    ∧ (st.rx_queue = [] → st.rx_buffer = [] → tailOp true st = (none, st))
    ∧ ((tailOp true st).1.isSome = true →
        linesOp (tailOp true st).2 = 0 ∧ dumpStr (tailOp true st).2 = []) := by
  refine ⟨?_, ?_, ?_, ?_⟩
  · intro hq
    have hl : 0 < st.rx_queue.length := List.length_pos.mpr hq
    rw [tailOp, if_pos hl]
    simp [clearRx]
  · intro hq l hlast
    have hl : ¬ 0 < st.rx_queue.length := by simp [hq]
    rw [tailOp, if_neg hl, hlast]
    simp [clearRx]
  · intro hq hb
    have hl : ¬ 0 < st.rx_queue.length := by simp [hq]
    rw [tailOp, if_neg hl, hb]
    rfl
  · intro hsome
    by_cases hl : 0 < st.rx_queue.length
    · rw [tailOp, if_pos hl]
      exact ⟨rfl, rfl⟩
    · cases hlast : st.rx_buffer.getLast? with
      | some l =>
        rw [tailOp, if_neg hl, hlast]
        exact ⟨rfl, rfl⟩
      | none =>
        rw [tailOp, if_neg hl, hlast] at hsome
        simp at hsome

/-- Claim C10 witness: a state with non-empty pending bytes, where `tail()`
returns them decoded and clears everything. -/
theorem claim_C10_witness :
    (([97] : List Nat) ≠ [])
    ∧ tailOp true ⟨[97], [[98, 0xa]]⟩ = (some (utf8Ignore [97]), ⟨[], []⟩) :=
  ⟨by decide, (claim_C10 ⟨[97], [[98, 0xa]]⟩).1 (by decide)⟩

end Mtda
